import Mathlib

/-!
Shallow embedding of `src/app.py` (vehicle telemetry pipeline).

Python dynamic values are modelled by `Value`; JSON objects / Python dicts
by association lists `Dict`.  Real numbers (Python floats) are modelled by
exact rationals `ℚ`.  Fallible Python operations (conversions that raise)
return `Option`.
-/

namespace Telemetry

/-- A Python/JSON value as it can appear in a decoded telemetry record.
`vnull` doubles as Python `None` and "key absent" where the source uses
`dict.get` (which returns `None` for a missing key). -/
inductive Value where
  | vnull : Value
  | vint (n : Int) : Value
  | vnum (q : ℚ) : Value
  | vstr (s : String) : Value
  | vbool (b : Bool) : Value
deriving DecidableEq, Repr

/-- Truncation of a rational toward zero, as Python `int(float)` does. -/
def ratTrunc (q : ℚ) : Int :=
  Int.tdiv q.num (q.den : Int)

/-- Accumulate a run of decimal digits; fails on the first non-digit. -/
def parseNatAux : List Char → Nat → Option Nat
  | [], acc => some acc
  | c :: rest, acc =>
    if c.isDigit then parseNatAux rest (acc * 10 + (c.toNat - 48)) else none

/-- Parse a non-empty all-digit character run. -/
def parseNatChars (l : List Char) : Option Nat :=
  match l with
  | [] => none
  | _ => parseNatAux l 0

/-- Parse an optionally `-`-signed integer literal.  Models Python
`int(str)` on the plain literals telemetry sources emit. -/
def parseIntChars : List Char → Option Int
  | [] => none
  | c :: rest =>
    if c = '-' then (parseNatChars rest).map (fun n => -(n : Int))
    else (parseNatChars (c :: rest)).map (fun n => (n : Int))

/-- Python `int(v)`: `none` models a raised `TypeError`/`ValueError`. -/
def pyInt : Value → Option Int
  | .vnull => none
  | .vint n => some n
  | .vnum q => some (ratTrunc q)
  | .vstr s => parseIntChars s.data
  | .vbool b => some (if b then 1 else 0)

/-- Parse a plain decimal literal (optional sign, digits, optional
fractional part) into a rational.  Models Python `float(str)` on the
decimal literals telemetry sources emit. -/
def parseDecimalChars (l : List Char) : Option ℚ :=
  match l.splitOn '.' with
  | [w] => (parseIntChars w).map (fun n => (n : ℚ))
  | [w, f] =>
    match parseIntChars w, parseNatChars f with
    | some n, some m =>
      let mag : ℚ := (n.natAbs : ℚ) + (m : ℚ) / ((10 : ℚ) ^ f.length)
      some (if l.head? = some '-' then -mag else mag)
    | _, _ => none
  | _ => none

/-- Python `float(v)`: `none` models a raised `TypeError`/`ValueError`. -/
def pyFloat : Value → Option ℚ
  | .vnull => none
  | .vint n => some (n : ℚ)
  | .vnum q => some q
  | .vstr s => parseDecimalChars s.data
  | .vbool b => some (if b then 1 else 0)

/-- A decoded record / canonical sample: a Python dict as association list. -/
def Dict : Type := List (String × Value)

instance : DecidableEq Dict := inferInstanceAs (DecidableEq (List (String × Value)))

instance : Repr Dict := inferInstanceAs (Repr (List (String × Value)))

/-- First binding of key `k`, if the key is present (Python `k in d`). -/
def dictFind (d : Dict) (k : String) : Option Value :=
  match d with
  | [] => none
  | (k2, v) :: rest => if k2 = k then some v else dictFind rest k

/-- Python `d.get(k)`: `None` when the key is absent. -/
def dictGet (d : Dict) (k : String) : Value :=
  (dictFind d k).getD .vnull

/-- Python `d.get(k, dflt)`. -/
def dictGetD (d : Dict) (k : String) (dflt : Value) : Value :=
  (dictFind d k).getD dflt

/-- Default torque-model constants of `app.py` (`K_T`, `GEAR_RATIO_CONST`, `EFF`
environment fallbacks `0.06`, `10.0`, `0.9`). -/
def K_T_NM_PER_AMP : ℚ := 6 / 100

def GEAR_RATIO_CONST : ℚ := 10

def DRIVETRAIN_EFF : ℚ := 9 / 10

/-- Embeds `enrich_sample(raw)` of `app.py` (lines 143-181).  `now` is the value
`int(time.time() * 1000)` would return at the call; `kt`, `gr`, `eff` are
the three startup torque constants.  The result is `none` exactly when the
Python function raises (an unconvertible `t` or `lap`); otherwise it is the
returned nine-key dict. -/
def enrich_sample (now : Int) (kt gr eff : ℚ) (raw : Dict) : Option Dict :=
  let t_val := dictGet raw "t"
  let t_res := match t_val with
    | .vnull => some now
    | v => pyInt v
  match t_res with
  | none => none
  | some t_ms =>
    match pyInt (dictGetD raw "lap" (.vint 0)) with
    | none => none
    | some lap =>
      let V := dictGet raw "V"
      let A := dictGet raw "A"
      let Ah := dictGet raw "Ah"
      let mph := dictGet raw "mph"
      let torque0 := dictGet raw "torque"
      let torque :=
        if torque0 = Value.vnull ∧ A ≠ Value.vnull then
          match pyFloat A with
          | some a => Value.vnum (a * kt * gr * eff)
          | none => Value.vnull
        else torque0
      let lat := dictGet raw "lat"
      let lon := dictGet raw "lon"
      some [("t_ms", .vint t_ms), ("lap", .vint lap), ("V", V), ("A", A),
            ("Ah", Ah), ("mph", mph), ("torque", torque), ("lat", lat),
            ("lon", lon)]

/-! Store: the `samples` table and its queries -/

/-- One row of the `samples` table (`init_db`, lines 56-69).  `id` is the
autoincrement key, implicit in the list position here. -/
structure Row where
  t_ms : Int
  lap : Int
  V : Value
  A : Value
  Ah : Value
  mph : Value
  torque : Value
  lat : Value
  lon : Value
deriving DecidableEq, Repr

/-- Embeds `insert_sample(s)` of `app.py` (lines 76-94): append one row built with
`int(s.get("t_ms", 0))`, `int(s.get("lap", 0))` and the pass-through
columns.  `none` models a raised exception (conversion failure). -/
def insert_sample (store : List Row) (s : Dict) : Option (List Row) :=
  match pyInt (dictGetD s "t_ms" (.vint 0)), pyInt (dictGetD s "lap" (.vint 0)) with
  | some t, some l =>
    some (store ++ [⟨t, l, dictGet s "V", dictGet s "A", dictGet s "Ah",
                    dictGet s "mph", dictGet s "torque", dictGet s "lat",
                    dictGet s "lon"⟩])
  | _, _ => none

/-- Insert `n` into a strictly ascending list, keeping it ascending and
duplicate-free. -/
def insertSorted (n : Int) : List Int → List Int
  | [] => [n]
  | m :: ms =>
    if n < m then n :: m :: ms
    else if n = m then m :: ms
    else m :: insertSorted n ms

/-- Embeds `get_laps()` of `app.py` (lines 96-102):
`SELECT DISTINCT lap FROM samples ORDER BY lap ASC`. -/
def get_laps (store : List Row) : List Int :=
  store.foldr (fun r acc => insertSorted r.lap acc) []

/-- Embeds `get_latest_lap()` of `app.py` (lines 130-138):
`SELECT MAX(lap) FROM samples`, with `0` when the table is empty. -/
def get_latest_lap (store : List Row) : Int :=
  match store.map Row.lap with
  | [] => 0
  | l :: ls => ls.foldl max l

/-! Broadcaster: the `clients` set and `broadcast` -/

/-- A connected websocket observer.  `id` models Python object identity,
`alive` whether `ws.send_text` succeeds on this handle, `inbox` the
messages delivered so far. -/
structure Client where
  id : Nat
  alive : Bool
  inbox : List Dict
deriving DecidableEq, Repr

/-- Models `await ws.send_text(json.dumps(sample))` inside the `try`: delivery
succeeds iff the handle is alive; `none` models the raised exception. -/
def trySend (c : Client) (s : Dict) : Option Client :=
  if c.alive then some { c with inbox := c.inbox ++ [s] } else none

/-- The `for ws in clients: try ... except: dead.append(ws)` loop of
`broadcast` (lines 184-189): returns the clients after the send attempts
and the collected `dead` list. -/
def sendAll : List Client → Dict → List Client × List Client
  | [], _ => ([], [])
  | c :: cs, s =>
    match trySend c s with
    | some c2 => let r := sendAll cs s; (c2 :: r.1, r.2)
    | none => let r := sendAll cs s; (c :: r.1, c :: r.2)

/-- The `for ws in dead: clients.discard(ws)` loop (lines 190-191):
handles whose identity matches a dead handle are removed. -/
def removeDead (cs dead : List Client) : List Client :=
  cs.filter (fun c => !(dead.any (fun d => d.id == c.id)))

/-- Embeds `broadcast(sample)` of `app.py` (lines 183-191). -/
def broadcast (cs : List Client) (s : Dict) : List Client :=
  let r := sendAll cs s
  removeDead r.1 r.2

/-! Application state and the ingestion pipeline -/

/-- The module-level mutable state of `app.py`: the `clients` set, the
`latest_sample` cache (`[]` is the initial `{}`), the simulation flag, the
`samples` table, whether the persistence medium currently accepts writes
(`dbOk = false` makes `insert_sample` raise), and how many simulation
generator tasks have been created. -/
structure AppState where
  clients : List Client
  latest_sample : Dict
  simulation_mode : Bool
  store : List Row
  dbOk : Bool
  simTasks : Nat
deriving DecidableEq, Repr

/-- Lines 222-226 of `serial_reader` together with the exception path:
`latest_sample = sample; insert_sample(sample); await broadcast(sample)`.
The returned flag is `true` when no exception occurred; on a persistence
failure the cache is already updated but `broadcast` is never reached. -/
def handle_sample (st : AppState) (d : Dict) : AppState × Bool :=
  let st1 := { st with latest_sample := d }
  match (if st.dbOk then insert_sample st.store d else none) with
  | some store2 =>
    ({ st1 with store := store2, clients := broadcast st1.clients d }, true)
  | none => (st1, false)

/-- Phase of the `serial_reader` task: outside the inner read loop
(no open port) or inside it (port open, reading lines). -/
inductive Phase where
  | disconnected : Phase
  | connected : Phase
deriving DecidableEq, Repr

/-- The reader task's view of the world: application state, its loop
phase, and the stream of lines the transport will deliver — each already
decoded (`some raw`) or malformed (`none`, a `json.JSONDecodeError`). -/
structure SysState where
  app : AppState
  phase : Phase
  input : List (Option Dict)
deriving DecidableEq, Repr

/-- One iteration of `serial_reader` (lines 196-230): either one pass of
the outer connection loop (phase `disconnected`) or one pass of the inner
read loop (phase `connected`).  `now` is the wall clock for `enrich_sample`;
`kt`, `gr`, `eff` the torque constants.  Exceptions (enrich or persist
failure) fall to the outer `except` and drop the connection. -/
def reader_step (now : Int) (kt gr eff : ℚ) (s : SysState) : SysState :=
  match s.phase with
  | .disconnected =>
    if s.app.simulation_mode then s
    else { s with phase := .connected }
  | .connected =>
    if s.app.simulation_mode then { s with phase := .disconnected }
    else
      match s.input with
      | [] => s
      | none :: rest => { s with input := rest }
      | some raw :: rest =>
        match enrich_sample now kt gr eff raw with
        | none => { s with input := rest, phase := .disconnected }
        | some d =>
          let r := handle_sample s.app d
          if r.2 then { s with app := r.1, input := rest }
          else { s with app := r.1, input := rest, phase := .disconnected }

/-! Simulation control endpoints -/

/-- Embeds `start_simulation()` of `app.py` (lines 294-301): the returned string
is the `status` field of the JSON response; `simTasks` counts
`asyncio.create_task(simulation_runner())` calls. -/
def start_simulation (st : AppState) : AppState × String :=
  if ¬ st.simulation_mode then
    ({ st with simulation_mode := true, simTasks := st.simTasks + 1 },
     "simulation started")
  else (st, "simulation already running")

/-- Embeds `stop_simulation()` of `app.py` (lines 303-311). -/
def stop_simulation (st : AppState) : AppState × String :=
  if st.simulation_mode then
    ({ st with simulation_mode := false }, "simulation stopped")
  else (st, "simulation not running")

/-- Embeds `get_simulation_status()` of `app.py` (lines 313-315). -/
def get_simulation_status (st : AppState) : Bool :=
  st.simulation_mode

/-! Websocket subscription -/

/-- The connect prefix of `ws_endpoint` (lines 343-350): accept, add the
handle to `clients`, then send `latest_sample` to the new handle if the
cache is non-empty (`if latest_sample:`). -/
def ws_endpoint_connect (st : AppState) (c : Client) : AppState :=
  let c2 := if st.latest_sample ≠ [] then
      { c with inbox := c.inbox ++ [st.latest_sample] }
    else c
  { st with clients := st.clients ++ [c2] }

/-- Publish a sequence of samples through `broadcast`, in order. -/
def publishAll (cs : List Client) : List Dict → List Client
  | [] => cs
  | p :: ps => publishAll (broadcast cs p) ps

/-- The inbox of the client with identity `i`, if subscribed. -/
def inboxOf (cs : List Client) (i : Nat) : Option (List Dict) :=
  (cs.find? (fun c => c.id == i)).map Client.inbox

/-! Helper lemmas -/

/-- Success shape of `enrich_sample`: whenever it returns, the result is
the nine-field literal built from the raw record. -/
lemma enrich_sample_some (now : Int) (kt gr eff : ℚ) (raw d : Dict)
    (h : enrich_sample now kt gr eff raw = some d) :
    ∃ t l : Int,
      (match dictGet raw "t" with | .vnull => some now | v => pyInt v) = some t ∧
      pyInt (dictGetD raw "lap" (.vint 0)) = some l ∧
      d = [("t_ms", .vint t), ("lap", .vint l), ("V", dictGet raw "V"),
           ("A", dictGet raw "A"), ("Ah", dictGet raw "Ah"),
           ("mph", dictGet raw "mph"),
           ("torque",
             if dictGet raw "torque" = Value.vnull ∧ dictGet raw "A" ≠ Value.vnull then
               match pyFloat (dictGet raw "A") with
               | some a => Value.vnum (a * kt * gr * eff)
               | none => Value.vnull
             else dictGet raw "torque"),
           ("lat", dictGet raw "lat"), ("lon", dictGet raw "lon")] := by
  simp only [enrich_sample] at h
  split at h
  · exact absurd h (by simp)
  · rename_i t ht
    split at h
    · exact absurd h (by simp)
    · rename_i l hl
      refine ⟨t, l, ht, hl, ?_⟩
      simp only [Option.some.injEq] at h
      exact h.symm

/-! Claim theorems -/

/-- C3: for every raw record with a numeric current and no torque, the
enriched sample's torque equals `current * k_t * gearRatio * efficiency`;
where raw torque is present it passes through unchanged regardless of
current; when both torque and a usable current are absent, torque is left
absent (`vnull`). -/
theorem C3_torque_derivation (now : Int) (kt gr eff : ℚ) (raw d : Dict)
    (h : enrich_sample now kt gr eff raw = some d) :
    (∀ a : ℚ, dictGet raw "torque" = Value.vnull → dictGet raw "A" ≠ Value.vnull →
       pyFloat (dictGet raw "A") = some a →
       dictFind d "torque" = some (Value.vnum (a * kt * gr * eff)))
    ∧ (dictGet raw "torque" ≠ Value.vnull →
       dictFind d "torque" = some (dictGet raw "torque"))
    ∧ (dictGet raw "torque" = Value.vnull → pyFloat (dictGet raw "A") = none →
       dictFind d "torque" = some Value.vnull) := by
  obtain ⟨t, l, _, _, hd⟩ := enrich_sample_some now kt gr eff raw d h
  subst hd
  refine ⟨?_, ?_, ?_⟩
  · intro a h1 h2 h3
    simp [dictFind, h1, h2, h3]
  · intro h1
    simp [dictFind, h1]
  · intro h1 h2
    by_cases hA : dictGet raw "A" = Value.vnull
    · simp [dictFind, h1, hA]
    · simp [dictFind, h1, hA, h2]

/-- The spec scenario for C3: raw record with current 50 A and lap 3. -/
def c3Raw : Dict := [("A", Value.vint 50), ("lap", Value.vint 3)]

/-- The enriched result of `c3Raw` at the default constants. -/
def c3Enriched : Dict :=
  [("t_ms", .vint 0), ("lap", .vint 3), ("V", .vnull), ("A", .vint 50),
   ("Ah", .vnull), ("mph", .vnull),
   ("torque",
     .vnum (((50 : Int) : ℚ) * K_T_NM_PER_AMP * GEAR_RATIO_CONST * DRIVETRAIN_EFF)),
   ("lat", .vnull), ("lon", .vnull)]

/-- Witness for C3: raw `{"A": 50, "lap": 3}` with `k_t = 0.06`,
`gearRatio = 10`, `efficiency = 0.9` yields torque `27` and lap `3`. -/
theorem C3_torque_derivation_witness :
    enrich_sample 0 K_T_NM_PER_AMP GEAR_RATIO_CONST DRIVETRAIN_EFF c3Raw =
      some c3Enriched
    ∧ dictFind c3Enriched "torque" = some (Value.vnum 27)
    ∧ dictFind c3Enriched "lap" = some (Value.vint 3) := by
  have h : enrich_sample 0 K_T_NM_PER_AMP GEAR_RATIO_CONST DRIVETRAIN_EFF c3Raw =
      some c3Enriched := rfl
  refine ⟨h, ?_, by decide⟩
  have h2 := (C3_torque_derivation 0 K_T_NM_PER_AMP GEAR_RATIO_CONST DRIVETRAIN_EFF
      c3Raw c3Enriched h).1 (((50 : Int) : ℚ)) (by decide) (by decide) rfl
  rw [h2]
  norm_num [K_T_NM_PER_AMP, GEAR_RATIO_CONST, DRIVETRAIN_EFF]

/-- C2 counterexample: a raw record whose timestamp is present but not
convertible to an integer makes `enrich_sample` raise (`none`), instead of
substituting wall-clock time — the claim that enrichment never fails is
false on the code. -/
theorem C2_unconvertible_timestamp_raises :
    enrich_sample 1000 K_T_NM_PER_AMP GEAR_RATIO_CONST DRIVETRAIN_EFF
      [("t", Value.vstr "garbage")] = none := by decide

/-- C2 (amended): `enrich_sample` returns a canonical sample whenever the
raw timestamp is absent or convertible and the raw lap (with default `0`)
is convertible; a missing timestamp is replaced by the wall clock `now`.
A present but unconvertible timestamp or lap raises instead. -/
theorem C2_enrich_total_on_convertible_inputs (now : Int) (kt gr eff : ℚ) (raw : Dict)
    (ht : dictGet raw "t" = Value.vnull ∨ ∃ n : Int, pyInt (dictGet raw "t") = some n)
    (hl : ∃ n : Int, pyInt (dictGetD raw "lap" (.vint 0)) = some n) :
    ∃ d : Dict, enrich_sample now kt gr eff raw = some d
      ∧ (dictGet raw "t" = Value.vnull → dictFind d "t_ms" = some (.vint now)) := by
  obtain ⟨l, hl⟩ := hl
  simp only [enrich_sample]
  rcases ht with ht | ⟨n, hn⟩
  · rw [ht]
    simp only [hl]
    exact ⟨_, rfl, fun _ => by simp [dictFind]⟩
  · have hm : (match dictGet raw "t" with | .vnull => some now | v => pyInt v) = some n := by
      cases h : dictGet raw "t" with
      | vnull => rw [h] at hn; simp [pyInt] at hn
      | _ => rw [h] at hn; simp [hn]
    rw [hm]
    simp only [hl]
    refine ⟨_, rfl, fun hnull => ?_⟩
    rw [hnull] at hn
    simp [pyInt] at hn

/-- Witness for the amended C2 at a record with no timestamp. -/
theorem C2_enrich_total_witness :
    (dictGet [("V", Value.vint 2)] "t" = Value.vnull ∨
      ∃ n : Int, pyInt (dictGet [("V", Value.vint 2)] "t") = some n)
    ∧ (∃ n : Int, pyInt (dictGetD [("V", Value.vint 2)] "lap" (.vint 0)) = some n)
    ∧ ∃ d : Dict,
        enrich_sample 5 1 1 1 [("V", Value.vint 2)] = some d
        ∧ (dictGet [("V", Value.vint 2)] "t" = Value.vnull →
            dictFind d "t_ms" = some (.vint 5)) :=
  ⟨Or.inl (by decide), ⟨0, by decide⟩,
   C2_enrich_total_on_convertible_inputs 5 1 1 1 [("V", Value.vint 2)]
     (Or.inl (by decide)) ⟨0, by decide⟩⟩

/-- C9 counterexample: a raw lap of `-1` passes through to the enriched
sample unchanged — the claim that a lap not convertible to a non-negative
integer becomes `0` (and that the enriched lap is never negative) is false
on the code. -/
theorem C9_negative_lap_passes_through :
    enrich_sample 0 K_T_NM_PER_AMP GEAR_RATIO_CONST DRIVETRAIN_EFF
        [("lap", Value.vint (-1))] =
      some [("t_ms", .vint 0), ("lap", .vint (-1)), ("V", .vnull), ("A", .vnull),
            ("Ah", .vnull), ("mph", .vnull), ("torque", .vnull), ("lat", .vnull),
            ("lon", .vnull)]
    ∧ Value.vint (-1) ≠ Value.vint 0 ∧ (-1 : Int) < 0 := by decide

/-- C9 (amended): the enriched lap is `int(raw.get("lap", 0))` — the raw
lap converted by Python `int`, which may be negative — and `0` exactly when
the lap key is absent; an unconvertible lap raises instead of defaulting. -/
theorem C9_lap_int_conversion (now : Int) (kt gr eff : ℚ) (raw d : Dict)
    (h : enrich_sample now kt gr eff raw = some d) :
    (∃ l : Int, pyInt (dictGetD raw "lap" (.vint 0)) = some l
        ∧ dictFind d "lap" = some (.vint l))
    ∧ (dictFind raw "lap" = none → dictFind d "lap" = some (.vint 0)) := by
  obtain ⟨t, l, _, hl, hd⟩ := enrich_sample_some now kt gr eff raw d h
  subst hd
  refine ⟨⟨l, hl, by simp [dictFind]⟩, fun habs => ?_⟩
  rw [dictGetD, habs] at hl
  simp [pyInt] at hl
  subst hl
  simp [dictFind]

/-- Witness for the amended C9 at a record with lap 7. -/
theorem C9_lap_int_conversion_witness :
    (∃ l : Int, pyInt (dictGetD [("lap", Value.vint 7)] "lap" (.vint 0)) = some l
        ∧ dictFind [("t_ms", Value.vint 3), ("lap", Value.vint 7), ("V", Value.vnull),
            ("A", Value.vnull), ("Ah", Value.vnull), ("mph", Value.vnull),
            ("torque", Value.vnull), ("lat", Value.vnull), ("lon", Value.vnull)]
          "lap" = some (.vint l))
    ∧ (dictFind [("lap", Value.vint 7)] "lap" = none →
        dictFind [("t_ms", Value.vint 3), ("lap", Value.vint 7), ("V", Value.vnull),
            ("A", Value.vnull), ("Ah", Value.vnull), ("mph", Value.vnull),
            ("torque", Value.vnull), ("lat", Value.vnull), ("lon", Value.vnull)]
          "lap" = some (.vint 0)) :=
  C9_lap_int_conversion 3 1 1 1 [("lap", Value.vint 7)] _ (by decide)

/-- C10: every dict returned by `enrich_sample` has exactly the nine
canonical keys `t_ms, lap, V, A, Ah, mph, torque, lat, lon` in order, and
the `t_ms` and `lap` fields are always integers. -/
theorem C10_canonical_nine_fields (now : Int) (kt gr eff : ℚ) (raw d : Dict)
    (h : enrich_sample now kt gr eff raw = some d) :
    List.map Prod.fst d = ["t_ms", "lap", "V", "A", "Ah", "mph", "torque", "lat", "lon"]
    ∧ (∃ n : Int, dictFind d "t_ms" = some (.vint n))
    ∧ (∃ n : Int, dictFind d "lap" = some (.vint n)) := by
  obtain ⟨t, l, _, _, hd⟩ := enrich_sample_some now kt gr eff raw d h
  subst hd
  exact ⟨by simp, ⟨t, by simp [dictFind]⟩, ⟨l, by simp [dictFind]⟩⟩

/-- Witness for C10 at a concrete raw record. -/
theorem C10_canonical_nine_fields_witness :
    List.map Prod.fst
        [("t_ms", Value.vint 7), ("lap", Value.vint 2), ("V", Value.vnull),
         ("A", Value.vnull), ("Ah", Value.vnull), ("mph", Value.vnull),
         ("torque", Value.vnull), ("lat", Value.vnull), ("lon", Value.vnull)] =
      ["t_ms", "lap", "V", "A", "Ah", "mph", "torque", "lat", "lon"]
    ∧ (∃ n : Int, dictFind
        [("t_ms", Value.vint 7), ("lap", Value.vint 2), ("V", Value.vnull),
         ("A", Value.vnull), ("Ah", Value.vnull), ("mph", Value.vnull),
         ("torque", Value.vnull), ("lat", Value.vnull), ("lon", Value.vnull)]
        "t_ms" = some (.vint n))
    ∧ (∃ n : Int, dictFind
        [("t_ms", Value.vint 7), ("lap", Value.vint 2), ("V", Value.vnull),
         ("A", Value.vnull), ("Ah", Value.vnull), ("mph", Value.vnull),
         ("torque", Value.vnull), ("lat", Value.vnull), ("lon", Value.vnull)]
        "lap" = some (.vint n)) :=
  C10_canonical_nine_fields 7 1 1 1 [("lap", Value.vint 2)] _ (by decide)

/-- Membership in `insertSorted`. -/
lemma insertSorted_mem (n : Int) (l : List Int) (m : Int) :
    m ∈ insertSorted n l ↔ m = n ∨ m ∈ l := by
  induction l with
  | nil => simp [insertSorted]
  | cons a as ih =>
    simp only [insertSorted]
    by_cases h1 : n < a
    · rw [if_pos h1]
      simp [List.mem_cons]
    · by_cases h2 : n = a
      · subst h2
        rw [if_neg h1, if_pos rfl]
        simp only [List.mem_cons]
        tauto
      · rw [if_neg h1, if_neg h2]
        simp only [List.mem_cons, ih]
        tauto

/-- Strict sortedness is preserved by `insertSorted`. -/
lemma insertSorted_sorted (n : Int) (l : List Int) (h : l.Sorted (· < ·)) :
    (insertSorted n l).Sorted (· < ·) := by
  induction l with
  | nil => simp [insertSorted]
  | cons a as ih =>
    rw [List.sorted_cons] at h
    simp only [insertSorted]
    by_cases h1 : n < a
    · rw [if_pos h1, List.sorted_cons]
      refine ⟨?_, by rw [List.sorted_cons]; exact h⟩
      intro b hb
      rcases List.mem_cons.mp hb with rfl | hb
      · exact h1
      · exact lt_trans h1 (h.1 b hb)
    · by_cases h2 : n = a
      · rw [if_neg h1, if_pos h2, List.sorted_cons]
        exact h
      · rw [if_neg h1, if_neg h2, List.sorted_cons]
        refine ⟨?_, ih h.2⟩
        intro b hb
        rcases (insertSorted_mem n as b).mp hb with rfl | hb
        · omega
        · exact h.1 b hb

/-- Laps returned by `get_laps` are strictly ascending. -/
lemma get_laps_sorted (store : List Row) : (get_laps store).Sorted (· < ·) := by
  induction store with
  | nil => simp [get_laps]
  | cons r rs ih => exact insertSorted_sorted r.lap _ ih

/-- Laps returned by `get_laps` are exactly the laps of the stored rows. -/
lemma get_laps_mem (store : List Row) (m : Int) :
    m ∈ get_laps store ↔ m ∈ store.map Row.lap := by
  induction store with
  | nil => simp [get_laps]
  | cons r rs ih =>
    simp only [get_laps, List.foldr_cons, List.map_cons, List.mem_cons]
    rw [insertSorted_mem]
    rw [show (List.foldr (fun r acc => insertSorted r.lap acc) [] rs) = get_laps rs from rfl]
    rw [ih]

/-- A left fold by `max` dominates its initial value. -/
lemma le_foldl_max (l : Int) (ls : List Int) : l ≤ ls.foldl max l := by
  induction ls generalizing l with
  | nil => exact le_refl l
  | cons a as ih => exact le_trans (le_max_left l a) (ih (max l a))

/-- A left fold by `max` lands on one of its inputs. -/
lemma foldl_max_mem (l : Int) (ls : List Int) : ls.foldl max l ∈ l :: ls := by
  induction ls generalizing l with
  | nil => simp
  | cons a as ih =>
    simp only [List.foldl_cons, List.mem_cons]
    rcases List.mem_cons.mp (ih (max l a)) with h | h
    · rcases max_choice l a with h2 | h2
      · exact Or.inl (h.trans h2)
      · exact Or.inr (Or.inl (h.trans h2))
    · exact Or.inr (Or.inr h)

/-- A left fold by `max` dominates every input. -/
lemma foldl_max_le (l : Int) (ls : List Int) (x : Int) (hx : x ∈ l :: ls) :
    x ≤ ls.foldl max l := by
  induction ls generalizing l with
  | nil =>
    rw [List.mem_singleton] at hx
    subst hx
    exact le_refl x
  | cons a as ih =>
    simp only [List.foldl_cons]
    rcases List.mem_cons.mp hx with rfl | hx
    · exact le_trans (le_max_left x a) (le_foldl_max (max x a) as)
    · rcases List.mem_cons.mp hx with rfl | hx
      · exact le_trans (le_max_right l x) (le_foldl_max (max l x) as)
      · exact ih (max l a) (List.mem_cons.mpr (Or.inr hx))

/-- C8: `get_laps` returns the distinct lap numbers of the stored samples
in strictly ascending order, and `get_latest_lap` returns their maximum,
`0` when no samples are recorded. -/
theorem C8_list_laps_sorted_max (store : List Row) :
    (get_laps store).Sorted (· < ·)
    ∧ (∀ m : Int, m ∈ get_laps store ↔ m ∈ store.map Row.lap)
    ∧ (store = [] → get_latest_lap store = 0)
    ∧ (∀ r ∈ store, r.lap ≤ get_latest_lap store)
    ∧ (store ≠ [] → get_latest_lap store ∈ store.map Row.lap) := by
  refine ⟨get_laps_sorted store, fun m => get_laps_mem store m, ?_, ?_, ?_⟩
  · intro h; subst h; rfl
  · intro r hr
    cases store with
    | nil => simp at hr
    | cons a as =>
      simp only [get_latest_lap, List.map_cons]
      refine foldl_max_le a.lap (as.map Row.lap) r.lap ?_
      rcases List.mem_cons.mp hr with rfl | hr
      · exact List.mem_cons_self _ _
      · exact List.mem_cons.mpr (Or.inr (List.mem_map_of_mem Row.lap hr))
  · intro h
    cases store with
    | nil => exact absurd rfl h
    | cons a as =>
      simp only [get_latest_lap, List.map_cons]
      exact foldl_max_mem a.lap (as.map Row.lap)

/-- The spec scenario store for C8: five samples across laps 1,1,2,3,2. -/
def c8Store : List Row :=
  [⟨10, 1, .vnull, .vnull, .vnull, .vnull, .vnull, .vnull, .vnull⟩,
   ⟨11, 1, .vnull, .vnull, .vnull, .vnull, .vnull, .vnull, .vnull⟩,
   ⟨12, 2, .vnull, .vnull, .vnull, .vnull, .vnull, .vnull, .vnull⟩,
   ⟨13, 3, .vnull, .vnull, .vnull, .vnull, .vnull, .vnull, .vnull⟩,
   ⟨14, 2, .vnull, .vnull, .vnull, .vnull, .vnull, .vnull, .vnull⟩]

/-- Witness for C8 on the spec scenario: laps {1,1,2,3,2} list as
[1,2,3] ascending with maximum 3. -/
theorem C8_list_laps_witness :
    get_laps c8Store = [1, 2, 3]
    ∧ (2 : Int) ∈ get_laps c8Store
    ∧ get_latest_lap c8Store ∈ c8Store.map Row.lap
    ∧ get_latest_lap c8Store = 3 :=
  ⟨by decide,
   ((C8_list_laps_sorted_max c8Store).2.1 2).mpr (by decide),
   (C8_list_laps_sorted_max c8Store).2.2.2.2 (by decide),
   by decide⟩

/-- C5: starting simulation while already running reports
"simulation already running" and creates no second generator task;
stopping while not running reports "simulation not running"; otherwise
start sets the shared flag and launches exactly one generator and stop
clears the flag. -/
theorem C5_simulation_start_stop (st : AppState) :
    (st.simulation_mode = true →
      start_simulation st = (st, "simulation already running"))
    ∧ (st.simulation_mode = false →
      start_simulation st =
        ({ st with simulation_mode := true, simTasks := st.simTasks + 1 },
         "simulation started"))
    ∧ (st.simulation_mode = false →
      stop_simulation st = (st, "simulation not running"))
    ∧ (st.simulation_mode = true →
      stop_simulation st =
        ({ st with simulation_mode := false }, "simulation stopped")) := by
  refine ⟨fun h => ?_, fun h => ?_, fun h => ?_, fun h => ?_⟩ <;>
    simp [start_simulation, stop_simulation, h]

/-- Witness for C5 at concrete states on both sides of the flag. -/
theorem C5_simulation_start_stop_witness :
    start_simulation ⟨[], [], false, [], true, 0⟩ =
      (⟨[], [], true, [], true, 1⟩, "simulation started")
    ∧ start_simulation ⟨[], [], true, [], true, 1⟩ =
      (⟨[], [], true, [], true, 1⟩, "simulation already running")
    ∧ stop_simulation ⟨[], [], true, [], true, 1⟩ =
      (⟨[], [], false, [], true, 1⟩, "simulation stopped")
    ∧ stop_simulation ⟨[], [], false, [], true, 0⟩ =
      (⟨[], [], false, [], true, 0⟩, "simulation not running") :=
  ⟨(C5_simulation_start_stop _).2.1 rfl,
   (C5_simulation_start_stop _).1 rfl,
   (C5_simulation_start_stop _).2.2.2 rfl,
   (C5_simulation_start_stop _).2.2.1 rfl⟩

/-- The send loop of `broadcast` updates every alive handle's inbox,
leaves failed handles unchanged, and collects exactly the failed handles
as `dead`. -/
lemma sendAll_eq (cs : List Client) (s : Dict) :
    sendAll cs s =
      (cs.map (fun c => if c.alive then { c with inbox := c.inbox ++ [s] } else c),
       cs.filter (fun c => !c.alive)) := by
  induction cs with
  | nil => rfl
  | cons c cs ih =>
    simp only [sendAll, trySend, List.map_cons, List.filter_cons]
    by_cases h : c.alive
    · simp [h, ih]
    · simp [h, ih]

/-- Net effect of one `broadcast` call (with distinct handle identities):
failed handles are removed, every surviving handle is an alive subscriber
with the sample appended to its inbox, in order. -/
lemma broadcast_filter_map (cs : List Client) (s : Dict)
    (h : (cs.map Client.id).Nodup) :
    broadcast cs s =
      (cs.filter (fun c => c.alive)).map
        (fun c => { c with inbox := c.inbox ++ [s] }) := by
  have hinj := List.inj_on_of_nodup_map h
  unfold broadcast removeDead
  rw [sendAll_eq]
  simp only
  rw [List.filter_map]
  have hfilter :
      cs.filter ((fun c => !((cs.filter (fun c => !c.alive)).any (fun d => d.id == c.id))) ∘
          (fun c => if c.alive then { c with inbox := c.inbox ++ [s] } else c)) =
        cs.filter (fun c => c.alive) := by
    apply List.filter_congr
    intro x hx
    simp only [Function.comp_apply]
    have hid : (if x.alive then { x with inbox := x.inbox ++ [s] } else x).id = x.id := by
      by_cases hx2 : x.alive <;> simp [hx2]
    rw [hid]
    by_cases hx2 : x.alive
    · rw [hx2]
      have : ((cs.filter (fun c => !c.alive)).any (fun d => d.id == x.id)) = false := by
        rw [List.any_eq_false]
        intro d hd
        have hdcs := List.mem_of_mem_filter hd
        have hdal : d.alive = false := by
          have := List.of_mem_filter hd
          simpa using this
        intro he
        have he2 : d.id = x.id := by simpa using he
        have hde := hinj hdcs hx he2
        rw [hde, hx2] at hdal
        exact Bool.noConfusion hdal
      rw [this]
      rfl
    · have hxf : x.alive = false := Bool.eq_false_iff.mpr hx2
      rw [hxf]
      have : ((cs.filter (fun c => !c.alive)).any (fun d => d.id == x.id)) = true := by
        rw [List.any_eq_true]
        exact ⟨x, List.mem_filter.mpr ⟨hx, by simp [hxf]⟩, by simp⟩
      rw [this]
      rfl
  rw [hfilter]
  apply List.map_congr_left
  intro x hx
  have := List.of_mem_filter hx
  simp only [this]
  rfl

/-- C7: `broadcast` attempts delivery to every currently subscribed
handle; a failure on one handle does not block the others — after the
call, exactly the failed handles are gone from the subscriber set and
every surviving (alive) handle has received the sample. -/
theorem C7_publish_isolates_failures (cs : List Client) (s : Dict)
    (h : (cs.map Client.id).Nodup) :
    broadcast cs s =
      (cs.filter (fun c => c.alive)).map
        (fun c => { c with inbox := c.inbox ++ [s] }) :=
  broadcast_filter_map cs s h

/-- Witness for C7: with one dead handle between two alive ones, both
alive handles receive the sample and only the dead one is dropped. -/
theorem C7_publish_isolates_failures_witness :
    broadcast [⟨1, true, []⟩, ⟨2, false, []⟩, ⟨3, true, []⟩] [("lap", Value.vint 1)] =
      [⟨1, true, [[("lap", Value.vint 1)]]⟩, ⟨3, true, [[("lap", Value.vint 1)]]⟩] :=
  C7_publish_isolates_failures _ _ (by decide)

/-- `broadcast` preserves handles' identities (it only drops some). -/
lemma broadcast_ids (cs : List Client) (s : Dict) (h : (cs.map Client.id).Nodup) :
    (broadcast cs s).map Client.id = (cs.filter (fun c => c.alive)).map Client.id := by
  rw [broadcast_filter_map cs s h, List.map_map]
  apply List.map_congr_left
  intro x hx
  rfl

/-- Distinctness of handle identities is preserved by `broadcast`. -/
lemma broadcast_nodup (cs : List Client) (s : Dict) (h : (cs.map Client.id).Nodup) :
    ((broadcast cs s).map Client.id).Nodup := by
  rw [broadcast_ids cs s h]
  exact h.sublist ((List.filter_sublist cs).map Client.id)

/-- An alive subscriber receives every later published sample, in order,
appended to its inbox. -/
lemma publishAll_alive (pubs : List Dict) (cs : List Client) (c : Client)
    (hmem : c ∈ cs) (halive : c.alive = true) (hnd : (cs.map Client.id).Nodup) :
    ∃ c2 ∈ publishAll cs pubs, c2.id = c.id ∧ c2.alive = true ∧
      c2.inbox = c.inbox ++ pubs := by
  induction pubs generalizing cs c with
  | nil => exact ⟨c, hmem, rfl, halive, by simp [publishAll]⟩
  | cons p ps ih =>
    have hc2mem : ({ c with inbox := c.inbox ++ [p] } : Client) ∈ broadcast cs p := by
      rw [broadcast_filter_map cs p hnd]
      exact List.mem_map_of_mem _ (List.mem_filter.mpr ⟨hmem, halive⟩)
    have hnd2 : ((broadcast cs p).map Client.id).Nodup := broadcast_nodup cs p hnd
    obtain ⟨c2, hm, hid, hal, hinbox⟩ :=
      ih (broadcast cs p) { c with inbox := c.inbox ++ [p] } hc2mem halive hnd2
    refine ⟨c2, hm, hid, hal, ?_⟩
    rw [hinbox]
    simp

/-- C6: an observer that subscribes while a latest sample exists receives
that sample as its first message, before every subsequently published one;
an observer subscribing before any sample exists receives nothing until
the next publish (its inbox is exactly the subsequent publishes). -/
theorem C6_late_joiner_gets_latest_first (st : AppState) (c : Client) (pubs : List Dict)
    (halive : c.alive = true) (hin : c.inbox = [])
    (hnd : ((st.clients ++ [c]).map Client.id).Nodup) :
    ∃ c2 ∈ publishAll (ws_endpoint_connect st c).clients pubs,
      c2.id = c.id ∧
      c2.inbox = (if st.latest_sample = ([] : Dict) then [] else [st.latest_sample]) ++ pubs := by
  by_cases hl : st.latest_sample = ([] : Dict)
  · have hcon : (ws_endpoint_connect st c).clients = st.clients ++ [c] := by
      simp [ws_endpoint_connect, hl]
    obtain ⟨c2, hm, hid2, hal2, hinbox⟩ :=
      publishAll_alive pubs (st.clients ++ [c]) c
        (List.mem_append_right _ (List.mem_singleton.mpr rfl)) halive hnd
    refine ⟨c2, by rw [hcon]; exact hm, hid2, ?_⟩
    rw [hinbox, hin, hl]
    simp
  · have hcon : (ws_endpoint_connect st c).clients =
        st.clients ++ [{ c with inbox := c.inbox ++ [st.latest_sample] }] := by
      simp [ws_endpoint_connect, hl]
    have hnd2 : ((st.clients ++ [{ c with inbox := c.inbox ++ [st.latest_sample] }]).map
        Client.id).Nodup := by
      rw [List.map_append] at hnd ⊢
      simpa using hnd
    obtain ⟨c2, hm, hid2, hal2, hinbox⟩ :=
      publishAll_alive pubs (st.clients ++ [{ c with inbox := c.inbox ++ [st.latest_sample] }])
        { c with inbox := c.inbox ++ [st.latest_sample] }
        (List.mem_append_right _ (List.mem_singleton.mpr rfl)) halive hnd2
    refine ⟨c2, by rw [hcon]; exact hm, hid2, ?_⟩
    rw [hinbox, hin]
    simp [hl]

/-- A state with one existing latest sample and no subscribers yet. -/
def c6State : AppState := ⟨[], [("lap", Value.vint 1)], false, [], true, 0⟩

/-- Witness for C6: a fresh observer subscribing at `c6State` and then
seeing one publish holds exactly [latest, published] in that order. -/
theorem C6_late_joiner_witness :
    ∃ c2 ∈ publishAll (ws_endpoint_connect c6State ⟨7, true, []⟩).clients
        [[("lap", Value.vint 2)]],
      c2.id = 7 ∧ c2.inbox = [[("lap", Value.vint 1)], [("lap", Value.vint 2)]] :=
  C6_late_joiner_gets_latest_first c6State ⟨7, true, []⟩ [[("lap", Value.vint 2)]]
    rfl rfl (by decide)

/-- Iterate `reader_step` a number of times. -/
def readerSteps (now : Int) (kt gr eff : ℚ) : Nat → SysState → SysState
  | 0, s => s
  | n + 1, s => readerSteps now kt gr eff n (reader_step now kt gr eff s)

/-- While the simulation flag is set, one reader iteration touches neither
the application state nor the transport input. -/
lemma reader_step_sim (now : Int) (kt gr eff : ℚ) (s : SysState)
    (h : s.app.simulation_mode = true) :
    (reader_step now kt gr eff s).app = s.app ∧
    (reader_step now kt gr eff s).input = s.input := by
  cases hp : s.phase <;> simp [reader_step, hp, h]

/-- C4 (amended): while simulation mode is active, any number of reader
iterations leaves the store, the subscribers, the cache and even the
pending transport input untouched — the reader pauses rather than reading
and discarding; once the flag is off, a disconnected reader reconnects and
a connected reader processes the next decoded record into the store, the
cache and a broadcast to all subscribers. -/
theorem C4_simulation_suppresses_live (now : Int) (kt gr eff : ℚ) (s : SysState) :
    (s.app.simulation_mode = true →
      ∀ n : Nat, (readerSteps now kt gr eff n s).app = s.app ∧
        (readerSteps now kt gr eff n s).input = s.input)
    ∧ (s.app.simulation_mode = false → s.phase = .disconnected →
      reader_step now kt gr eff s = { s with phase := .connected })
    ∧ (∀ raw rest d store2,
        s.app.simulation_mode = false → s.phase = .connected →
        s.input = some raw :: rest →
        enrich_sample now kt gr eff raw = some d →
        s.app.dbOk = true →
        insert_sample s.app.store d = some store2 →
        reader_step now kt gr eff s =
          { s with
            app := { s.app with
                       latest_sample := d,
                       store := store2,
                       clients := broadcast s.app.clients d },
            input := rest }) := by
  refine ⟨?_, ?_, ?_⟩
  · intro h n
    induction n generalizing s with
    | zero => exact ⟨rfl, rfl⟩
    | succ n ih =>
      have h1 := reader_step_sim now kt gr eff s h
      have h2 : (reader_step now kt gr eff s).app.simulation_mode = true := by
        rw [h1.1]; exact h
      have h3 := ih (reader_step now kt gr eff s) h2
      exact ⟨h3.1.trans h1.1, h3.2.trans h1.2⟩
  · intro h hp
    simp [reader_step, hp, h]
  · intro raw rest d store2 hsim hp hinput hd hdb hins
    simp only [reader_step, hp, hsim, Bool.false_eq_true, if_false, hinput, hd,
      handle_sample, hdb, if_true, hins]

/-- A connected reader state with simulation active and one pending
decoded line on the transport. -/
def c4State : SysState :=
  ⟨⟨[], [], true, [], true, 0⟩, .connected, [some [("lap", Value.vint 1)]]⟩

/-- C4 counterexample: with simulation active and a line pending, the
reader consumes no transport input at all (it leaves the read loop) — the
claim that live reading continues in the background with only its output
suppressed is false on the code. -/
theorem C4_reader_pauses_not_reads :
    c4State.app.simulation_mode = true ∧ c4State.input ≠ [] ∧
    (reader_step 0 1 1 1 c4State).input = c4State.input ∧
    (reader_step 0 1 1 1 c4State).phase = Phase.disconnected := by decide

/-- A connected reader state with simulation off, one subscriber, and one
pending decoded record. -/
def c4LiveState : SysState :=
  ⟨⟨[⟨1, true, []⟩], [], false, [], true, 0⟩, .connected,
   [some [("t", Value.vint 9), ("lap", Value.vint 1)]]⟩

/-- The enrichment of the pending record of `c4LiveState`. -/
def c4Enriched : Dict :=
  [("t_ms", Value.vint 9), ("lap", Value.vint 1), ("V", Value.vnull),
   ("A", Value.vnull), ("Ah", Value.vnull), ("mph", Value.vnull),
   ("torque", Value.vnull), ("lat", Value.vnull), ("lon", Value.vnull)]

/-- Witness for the amended C4: after simulation stops, the next decoded
live record reaches the store, the cache and the subscriber. -/
theorem C4_simulation_suppresses_live_witness :
    reader_step 9 1 1 1 c4LiveState =
      ⟨⟨[⟨1, true, [c4Enriched]⟩], c4Enriched, false,
        [⟨9, 1, .vnull, .vnull, .vnull, .vnull, .vnull, .vnull, .vnull⟩], true, 0⟩,
       .connected, []⟩ :=
  (C4_simulation_suppresses_live 9 1 1 1 c4LiveState).2.2
    [("t", Value.vint 9), ("lap", Value.vint 1)] [] c4Enriched
    [⟨9, 1, .vnull, .vnull, .vnull, .vnull, .vnull, .vnull, .vnull⟩]
    rfl rfl rfl (by decide) rfl (by decide)

/-- A live subscriber present while the persistence medium is down. -/
def c1Client : Client := ⟨1, true, []⟩

/-- A canonical sample arriving while the persistence medium is down. -/
def c1Sample : Dict := [("t_ms", Value.vint 5), ("lap", Value.vint 1)]

/-- Application state with one subscriber and the store unavailable. -/
def c1Down : AppState := ⟨[c1Client], [], false, [], false, 0⟩

/-- C1 evaluation: when `insert_sample` fails, the in-memory cache is
updated but the exception aborts the iteration before `broadcast` — the
subscriber's inbox stays empty, so the sample is NOT delivered to the
subscribed observers; the same sample with the store available is
persisted and broadcast. -/
theorem C1_persist_failure_skips_broadcast :
    handle_sample c1Down c1Sample =
      ({ c1Down with latest_sample := c1Sample }, false)
    ∧ (handle_sample c1Down c1Sample).1.clients = [c1Client]
    ∧ c1Client.inbox = []
    ∧ handle_sample { c1Down with dbOk := true } c1Sample =
      (⟨[⟨1, true, [c1Sample]⟩], c1Sample, false,
        [⟨5, 1, .vnull, .vnull, .vnull, .vnull, .vnull, .vnull, .vnull⟩], true, 0⟩, true) := by
  decide

end Telemetry
